import Mathlib

/-!
Verification of the match-result aggregation core of `hashmaps3.rs`
(`build_scores_table`) against its natural-language specification.

The Rust source accumulates goals in `u8` fields updated with unchecked `+=`
(modelled as addition modulo 2^8, the release-build semantics; debug builds
panic on overflow instead, and either way the checked-`OverflowError`
behaviour required by the specification is absent).  Panics coming from
`Option::unwrap` / `Result::unwrap` during parsing are modelled as
`Except.error` values carrying the kind of panic, since a panic aborts
`build_scores_table` without producing a map.
-/

set_option autoImplicit false

namespace Hashmaps3

/-- `TeamScores` from `hashmaps3.rs` (lines 12–16): goal totals of one team.
Both fields are Rust `u8` counters, represented as `Nat` values kept below
2^8 by reducing modulo 2^8 at every addition. -/
structure TeamScores where
  goals_scored : Nat
  goals_conceded : Nat
deriving DecidableEq

/-- Unchecked Rust `u8` addition (`+=` on a `u8` field): wraps modulo 2^8. -/
def u8add (a b : Nat) : Nat := (a + b) % 256

/-- The error kinds of Rust `core::num::ParseIntError` reachable from
`str::parse::<u8>`. -/
inductive IntErrorKind where
  | empty
  | invalidDigit
  | posOverflow
deriving DecidableEq

/-- Splitting a character list at every occurrence of a separator character:
the semantics of Rust `str::split` with a `char` pattern (`line.split(',')`,
`str::lines`).  Always returns at least one (possibly empty) piece. -/
def splitChar (sep : Char) : List Char → List (List Char)
  | [] => [[]]
  | c :: rest =>
    let r := splitChar sep rest
    if c = sep then [] :: r
    else
      match r with
      | [] => [[c]]
      | g :: gs => (c :: g) :: gs

/-- `line.split(',')` as a list of strings. -/
def splitComma (line : String) : List String :=
  (splitChar ',' line.data).map String.mk

/-- ASCII base-10 digit test (`char::is_digit(10)` on the parse path). -/
def isDigitChar (c : Char) : Bool :=
  48 ≤ c.toNat && c.toNat ≤ 57

/-- The digit loop of Rust `u8::from_str`: consume base-10 ASCII digits,
failing with `InvalidDigit` on a non-digit and with `PosOverflow` as soon as
the running value leaves the `u8` range. -/
def parseU8Digits : List Char → Nat → Except IntErrorKind Nat
  | [], acc => .ok acc
  | c :: rest, acc =>
    if isDigitChar c then
      let acc' := acc * 10 + (c.toNat - 48)
      if acc' > 255 then .error .posOverflow
      else parseU8Digits rest acc'
    else .error .invalidDigit

/-- Rust `str::parse::<u8>` (`u8::from_str`): the empty string fails with
`Empty`; an optional leading `+` is stripped (a bare `+` fails with
`InvalidDigit`); for the unsigned type a `-` is not a sign and fails the
digit loop.  The digits are parsed by `parseU8Digits`. -/
def parseU8 (s : String) : Except IntErrorKind Nat :=
  match s.data with
  | [] => .error .empty
  | c :: rest =>
    if c = '+' then
      match rest with
      | [] => .error .invalidDigit
      | _ => parseU8Digits rest 0
    else parseU8Digits (c :: rest) 0

/-- The result of parsing one line (the local variables of the loop body of
`build_scores_table`, lines 25–28). -/
structure MatchRecord where
  team_1_name : String
  team_2_name : String
  team_1_score : Nat
  team_2_score : Nat
deriving DecidableEq

/-- Why `build_scores_table` panics: `split_iterator.next().unwrap()` on
`None` (missing field), or `.parse::<u8>().unwrap()` on `Err` (bad goal
field).  A panic aborts the function; no structured error value exists. -/
inductive PanicReason where
  | unwrapNone
  | unwrapErr (kind : IntErrorKind)
deriving DecidableEq

deriving instance DecidableEq for Except

/-- `split_iterator.next().unwrap()`: the n-th field of the split, panicking
(`unwrapNone`) when the iterator is exhausted. -/
def nextUnwrap (fields : List String) (n : Nat) : Except PanicReason String :=
  match fields.get? n with
  | some f => .ok f
  | none => .error .unwrapNone

/-- `.parse::<u8>().unwrap()`: panics (`unwrapErr`) on a parse failure. -/
def parseUnwrap (s : String) : Except PanicReason Nat :=
  match parseU8 s with
  | .ok n => .ok n
  | .error k => .error (.unwrapErr k)

/-- The parsing half of the loop body of `build_scores_table` (lines 23–28):
`line.split(',')` followed by four `next().unwrap()` calls, the last two
fed through `parse::<u8>().unwrap()`.  Fields past the fourth are never
requested and are silently ignored. -/
def parseFields (fields : List String) : Except PanicReason MatchRecord := do
  let team_1_name ← nextUnwrap fields 0
  let team_2_name ← nextUnwrap fields 1
  let f3 ← nextUnwrap fields 2
  let team_1_score ← parseUnwrap f3
  let f4 ← nextUnwrap fields 3
  let team_2_score ← parseUnwrap f4
  pure ⟨team_1_name, team_2_name, team_1_score, team_2_score⟩

/-- Parsing one raw line: `line.split(',')` then `parseFields`. -/
def parseLine (line : String) : Except PanicReason MatchRecord :=
  parseFields (splitComma line)

/-- The `HashMap<&str, TeamScores>` of the source, modelled as an
association list with (by invariant) pairwise distinct keys; `lookup` is
`HashMap::get`. -/
abbrev Scoreboard := List (String × TeamScores)

/-- `HashMap::get`: the value stored at key `k`, if any. -/
def lookup : Scoreboard → String → Option TeamScores
  | [], _ => none
  | (k', v) :: rest, k => if k' = k then some v else lookup rest k

/-- `scores.entry(name).or_insert(TeamScores::default())` followed by
`goals_scored += ds; goals_conceded += dc` on the returned entry: update in
place when the key is present, otherwise insert `{0,0}` and update it. -/
def updateEntry : Scoreboard → String → Nat → Nat → Scoreboard
  | [], k, ds, dc => [(k, ⟨u8add 0 ds, u8add 0 dc⟩)]
  | (k', v) :: rest, k, ds, dc =>
    if k' = k then
      (k', ⟨u8add v.goals_scored ds, u8add v.goals_conceded dc⟩) :: rest
    else
      (k', v) :: updateEntry rest k ds dc

/-- The aggregation half of the loop body of `build_scores_table`
(lines 34–39): the two symmetric `entry(..).or_insert(..)` updates. -/
def applyRecord (scores : Scoreboard) (r : MatchRecord) : Scoreboard :=
  let scores := updateEntry scores r.team_1_name r.team_1_score r.team_2_score
  updateEntry scores r.team_2_name r.team_2_score r.team_1_score

/-- Strip one trailing carriage return (part of `str::lines`). -/
def stripCarriage (cs : List Char) : List Char :=
  match cs.getLast? with
  | some c => if c = '\r' then cs.dropLast else cs
  | none => cs

/-- Rust `str::lines()`: split on `'\n'`, drop a final empty piece produced
by a trailing newline, and strip one trailing `'\r'` from each line. -/
def rustLines (s : String) : List String :=
  let parts := splitChar '\n' s.data
  (match parts.getLast? with
   | some [] => parts.dropLast
   | _ => parts).map (fun cs => String.mk (stripCarriage cs))

/-- `build_scores_table` from `hashmaps3.rs` (lines 18–64): fold the loop
body over the lines of the input, starting from the empty map.  A panic in
any iteration aborts the whole function. -/
def build_scores_table (results : String) : Except PanicReason Scoreboard :=
  (rustLines results).foldlM
    (fun scores line => do
      let r ← parseFields (splitComma line)
      pure (applyRecord scores r))
    []

/-- Aggregation at the record level: `build_scores_table` with the parsing
already done, folding `applyRecord` over a list of records. -/
def aggregate (records : List MatchRecord) (init : Scoreboard) : Scoreboard :=
  records.foldl applyRecord init

/-- The `RESULTS` constant of the test module (lines 74–78). -/
def RESULTS : String :=
  "England,France,4,2\nFrance,Italy,3,1\nPoland,Spain,2,0\nGermany,England,2,1\nEngland,Spain,1,0"

/-- The keys of the map, in insertion order. -/
def keys (s : Scoreboard) : List String :=
  s.map Prod.fst

/-- Whether the map has an entry for `k` (`HashMap::contains_key`). -/
def hasTeam (s : Scoreboard) (k : String) : Bool :=
  (lookup s k).isSome

/-- The stored goals-scored total of `k`, defaulting to `0` when absent. -/
def scoredVal (s : Scoreboard) (k : String) : Nat :=
  ((lookup s k).getD ⟨0, 0⟩).goals_scored

/-- The stored goals-conceded total of `k`, defaulting to `0` when absent. -/
def concededVal (s : Scoreboard) (k : String) : Nat :=
  ((lookup s k).getD ⟨0, 0⟩).goals_conceded

/-- Whether record `r` mentions team `k` on either side. -/
def touches (r : MatchRecord) (k : String) : Bool :=
  r.team_1_name == k || r.team_2_name == k

/-- The goals record `r` contributes to the scored total of team `k`. -/
def contribScored (r : MatchRecord) (k : String) : Nat :=
  (if r.team_1_name = k then r.team_1_score else 0) +
    (if r.team_2_name = k then r.team_2_score else 0)

/-- The goals record `r` contributes to the conceded total of team `k`. -/
def contribConceded (r : MatchRecord) (k : String) : Nat :=
  (if r.team_1_name = k then r.team_2_score else 0) +
    (if r.team_2_name = k then r.team_1_score else 0)

/-- Whether any record in `l` mentions team `k`. -/
def touchesAny (l : List MatchRecord) (k : String) : Bool :=
  l.any (touches · k)

/-- The scored total contributed by a whole record list to team `k`. -/
def totScored (l : List MatchRecord) (k : String) : Nat :=
  (l.map (contribScored · k)).sum

/-- The conceded total contributed by a whole record list to team `k`. -/
def totConceded (l : List MatchRecord) (k : String) : Nat :=
  (l.map (contribConceded · k)).sum

/-- Well-formedness of a scoreboard as a `HashMap<&str, TeamScores>` image:
pairwise distinct keys and `u8`-bounded stored values.  Every scoreboard
the program builds satisfies it. -/
def Wf (s : Scoreboard) : Prop :=
  (keys s).Nodup ∧ ∀ p ∈ s, p.2.goals_scored < 256 ∧ p.2.goals_conceded < 256

/-- Scoreboard equality as `HashMap` equality: the same keys bound to the
same values, irrespective of internal order. -/
def BoardEquiv (s t : Scoreboard) : Prop :=
  ∀ k, lookup s k = lookup t k

/-- Modelled from the spec: the Shard Merger (§4.4) is absent from the
source; combining one shard into an accumulator takes, for each team of the
shard, the component-wise sum of `goals_scored` and `goals_conceded`,
creating a `{0,0}` entry when the team is absent from the accumulator.  The
counters are the scoreboard's `u8` fields. -/
def mergeTwo (a b : Scoreboard) : Scoreboard :=
  b.foldl (fun acc p => updateEntry acc p.1 p.2.goals_scored p.2.goals_conceded) a

/-- Modelled from the spec: `merge(boards)` folds the shards together,
starting from the empty scoreboard. -/
def merge (boards : List Scoreboard) : Scoreboard :=
  boards.foldl mergeTwo []

theorem u8add_u8add (x a b : Nat) : u8add (u8add x a) b = u8add x (a + b) := by
  simp [u8add, Nat.mod_add_mod, Nat.add_assoc]

theorem u8add_lt (x a : Nat) : u8add x a < 256 :=
  Nat.mod_lt _ (by omega)

theorem u8add_zero_of_lt {x : Nat} (h : x < 256) : u8add x 0 = x := by
  simp [u8add, Nat.mod_eq_of_lt h]

theorem lookup_updateEntry_self (s : Scoreboard) (k : String) (ds dc : Nat) :
    lookup (updateEntry s k ds dc) k =
      some ⟨u8add (scoredVal s k) ds, u8add (concededVal s k) dc⟩ := by
  induction s with
  | nil => simp [updateEntry, lookup, scoredVal, concededVal]
  | cons p rest ih =>
    obtain ⟨k', v⟩ := p
    by_cases h : k' = k
    · subst h; simp [updateEntry, lookup, scoredVal, concededVal]
    · simp [updateEntry, lookup, h, ih, scoredVal, concededVal]

theorem lookup_updateEntry_ne (s : Scoreboard) {k k' : String} (h : k ≠ k')
    (ds dc : Nat) : lookup (updateEntry s k ds dc) k' = lookup s k' := by
  induction s with
  | nil => simp [updateEntry, lookup, h]
  | cons p rest ih =>
    obtain ⟨k'', v⟩ := p
    by_cases h2 : k'' = k
    · subst h2; simp [updateEntry, lookup, h]
    · simp [updateEntry, lookup, h2, ih]

theorem scoredVal_updateEntry_self (s : Scoreboard) (k : String) (ds dc : Nat) :
    scoredVal (updateEntry s k ds dc) k = u8add (scoredVal s k) ds := by
  simp [scoredVal, lookup_updateEntry_self, concededVal]

theorem concededVal_updateEntry_self (s : Scoreboard) (k : String) (ds dc : Nat) :
    concededVal (updateEntry s k ds dc) k = u8add (concededVal s k) dc := by
  simp [concededVal, lookup_updateEntry_self]

theorem contribScored_eq_zero {r : MatchRecord} {k : String}
    (h : touches r k = false) : contribScored r k = 0 := by
  simp only [touches, Bool.or_eq_false_iff, beq_eq_false_iff_ne, ne_eq] at h
  simp [contribScored, h.1, h.2]

theorem contribConceded_eq_zero {r : MatchRecord} {k : String}
    (h : touches r k = false) : contribConceded r k = 0 := by
  simp only [touches, Bool.or_eq_false_iff, beq_eq_false_iff_ne, ne_eq] at h
  simp [contribConceded, h.1, h.2]

theorem lookup_applyRecord (s : Scoreboard) (r : MatchRecord) (k : String) :
    lookup (applyRecord s r) k =
      if touches r k then
        some ⟨u8add (scoredVal s k) (contribScored r k),
              u8add (concededVal s k) (contribConceded r k)⟩
      else lookup s k := by
  obtain ⟨t1, t2, g1, g2⟩ := r
  show lookup (updateEntry (updateEntry s t1 g1 g2) t2 g2 g1) k = _
  by_cases h1 : t1 = k <;> by_cases h2 : t2 = k
  · subst h1; subst h2
    rw [lookup_updateEntry_self, scoredVal_updateEntry_self,
      concededVal_updateEntry_self, u8add_u8add, u8add_u8add]
    simp [touches, contribScored, contribConceded]
  · subst h1
    rw [lookup_updateEntry_ne _ h2, lookup_updateEntry_self]
    simp [touches, contribScored, contribConceded, h2]
  · subst h2
    rw [lookup_updateEntry_self]
    simp only [scoredVal, concededVal, lookup_updateEntry_ne _ h1]
    simp [touches, contribScored, contribConceded, h1]
  · rw [lookup_updateEntry_ne _ h2, lookup_updateEntry_ne _ h1]
    simp [touches, h1, h2]

theorem hasTeam_applyRecord (s : Scoreboard) (r : MatchRecord) (k : String) :
    hasTeam (applyRecord s r) k = (hasTeam s k || touches r k) := by
  by_cases h : touches r k <;> simp [hasTeam, lookup_applyRecord, h]

theorem scoredVal_applyRecord (s : Scoreboard) (r : MatchRecord) (k : String) :
    scoredVal (applyRecord s r) k =
      if touches r k then u8add (scoredVal s k) (contribScored r k)
      else scoredVal s k := by
  by_cases h : touches r k <;> simp [scoredVal, lookup_applyRecord, h]

theorem concededVal_applyRecord (s : Scoreboard) (r : MatchRecord) (k : String) :
    concededVal (applyRecord s r) k =
      if touches r k then u8add (concededVal s k) (contribConceded r k)
      else concededVal s k := by
  by_cases h : touches r k <;> simp [concededVal, lookup_applyRecord, h]

theorem totScored_cons (r : MatchRecord) (l : List MatchRecord) (k : String) :
    totScored (r :: l) k = contribScored r k + totScored l k := by
  simp [totScored]

theorem totConceded_cons (r : MatchRecord) (l : List MatchRecord) (k : String) :
    totConceded (r :: l) k = contribConceded r k + totConceded l k := by
  simp [totConceded]

theorem totScored_eq_zero {l : List MatchRecord} {k : String}
    (h : touchesAny l k = false) : totScored l k = 0 := by
  induction l with
  | nil => rfl
  | cons r l ih =>
    simp only [touchesAny, List.any_cons, Bool.or_eq_false_iff] at h
    simp [totScored_cons, contribScored_eq_zero h.1, ih h.2]

theorem totConceded_eq_zero {l : List MatchRecord} {k : String}
    (h : touchesAny l k = false) : totConceded l k = 0 := by
  induction l with
  | nil => rfl
  | cons r l ih =>
    simp only [touchesAny, List.any_cons, Bool.or_eq_false_iff] at h
    simp [totConceded_cons, contribConceded_eq_zero h.1, ih h.2]

theorem touchesAny_cons (r : MatchRecord) (l : List MatchRecord) (k : String) :
    touchesAny (r :: l) k = (touches r k || touchesAny l k) := rfl

theorem lookup_aggregate (l : List MatchRecord) (s : Scoreboard) (k : String) :
    lookup (aggregate l s) k =
      if touchesAny l k then
        some ⟨u8add (scoredVal s k) (totScored l k),
              u8add (concededVal s k) (totConceded l k)⟩
      else lookup s k := by
  induction l generalizing s with
  | nil => simp [aggregate, touchesAny, totScored, totConceded]
  | cons r l ih =>
    show lookup (aggregate l (applyRecord s r)) k = _
    rw [ih, touchesAny_cons, totScored_cons, totConceded_cons]
    cases hr : touches r k <;> cases hl : touchesAny l k
    · simp [hl, hr, lookup_applyRecord]
    · simp [hl, hr, scoredVal_applyRecord, concededVal_applyRecord,
        contribScored_eq_zero hr, contribConceded_eq_zero hr]
    · simp [hl, hr, lookup_applyRecord, totScored_eq_zero hl,
        totConceded_eq_zero hl]
    · simp [hl, hr, scoredVal_applyRecord, concededVal_applyRecord,
        u8add_u8add, totScored_cons, totConceded_cons]

theorem hasTeam_aggregate (l : List MatchRecord) (s : Scoreboard) (k : String) :
    hasTeam (aggregate l s) k = (hasTeam s k || touchesAny l k) := by
  by_cases h : touchesAny l k <;> simp [hasTeam, lookup_aggregate, h]

theorem hasTeam_iff_mem_keys (s : Scoreboard) (k : String) :
    hasTeam s k = true ↔ k ∈ keys s := by
  induction s with
  | nil => simp [hasTeam, lookup, keys]
  | cons p rest ih =>
    obtain ⟨k', v⟩ := p
    by_cases h : k' = k
    · subst h; simp [hasTeam, lookup, keys]
    · have h' : ¬k = k' := fun hh => h hh.symm
      simpa [hasTeam, lookup, keys, h, h'] using ih

theorem updateEntry_cons_ne {k' k : String} (h : ¬k' = k) (v : TeamScores)
    (s : Scoreboard) (ds dc : Nat) :
    updateEntry ((k', v) :: s) k ds dc = (k', v) :: updateEntry s k ds dc := by
  simp [updateEntry, h]

theorem keys_cons (k' : String) (v : TeamScores) (s : Scoreboard) :
    keys ((k', v) :: s) = k' :: keys s := rfl

theorem keys_updateEntry (s : Scoreboard) (k : String) (ds dc : Nat) :
    keys (updateEntry s k ds dc) =
      if hasTeam s k then keys s else keys s ++ [k] := by
  induction s with
  | nil => simp [updateEntry, keys, hasTeam, lookup]
  | cons p rest ih =>
    obtain ⟨k', v⟩ := p
    by_cases h : k' = k
    · subst h; simp [updateEntry, keys, hasTeam, lookup]
    · rw [updateEntry_cons_ne h, keys_cons, keys_cons, ih]
      have hcond : hasTeam ((k', v) :: rest) k = hasTeam rest k := by
        simp [hasTeam, lookup, h]
      rw [hcond]
      cases h2 : hasTeam rest k <;> simp

theorem nodup_keys_updateEntry {s : Scoreboard} (h : (keys s).Nodup)
    (k : String) (ds dc : Nat) : (keys (updateEntry s k ds dc)).Nodup := by
  rw [keys_updateEntry]
  by_cases hk : hasTeam s k = true
  · simp [hk, h]
  · have hm : k ∉ keys s := fun hh => hk ((hasTeam_iff_mem_keys s k).mpr hh)
    simp [hk, List.nodup_append, h, hm]

theorem nodup_keys_applyRecord {s : Scoreboard} (h : (keys s).Nodup)
    (r : MatchRecord) : (keys (applyRecord s r)).Nodup :=
  nodup_keys_updateEntry (nodup_keys_updateEntry h _ _ _) _ _ _

theorem nodup_keys_aggregate {s : Scoreboard} (h : (keys s).Nodup)
    (l : List MatchRecord) : (keys (aggregate l s)).Nodup := by
  induction l generalizing s with
  | nil => exact h
  | cons r l ih => exact ih (nodup_keys_applyRecord h r)

theorem bounded_updateEntry {s : Scoreboard}
    (hb : ∀ p ∈ s, p.2.goals_scored < 256 ∧ p.2.goals_conceded < 256)
    (k : String) (ds dc : Nat) :
    ∀ p ∈ updateEntry s k ds dc,
      p.2.goals_scored < 256 ∧ p.2.goals_conceded < 256 := by
  induction s with
  | nil =>
    intro p hp
    simp [updateEntry] at hp
    subst hp
    exact ⟨u8add_lt _ _, u8add_lt _ _⟩
  | cons q rest ih =>
    obtain ⟨k', v⟩ := q
    by_cases h : k' = k
    · subst h
      intro p hp
      simp [updateEntry] at hp
      rcases hp with rfl | hp
      · exact ⟨u8add_lt _ _, u8add_lt _ _⟩
      · exact hb _ (List.mem_cons_of_mem _ hp)
    · intro p hp
      simp [updateEntry, h] at hp
      rcases hp with rfl | hp
      · exact hb _ (List.mem_cons_self _ _)
      · exact ih (fun q hq => hb q (List.mem_cons_of_mem _ hq)) p hp

theorem Wf_nil : Wf [] :=
  ⟨List.nodup_nil, by simp⟩

theorem Wf_updateEntry {s : Scoreboard} (h : Wf s) (k : String) (ds dc : Nat) :
    Wf (updateEntry s k ds dc) :=
  ⟨nodup_keys_updateEntry h.1 k ds dc, bounded_updateEntry h.2 k ds dc⟩

theorem Wf_applyRecord {s : Scoreboard} (h : Wf s) (r : MatchRecord) :
    Wf (applyRecord s r) :=
  Wf_updateEntry (Wf_updateEntry h _ _ _) _ _ _

theorem Wf_aggregate {s : Scoreboard} (h : Wf s) (l : List MatchRecord) :
    Wf (aggregate l s) := by
  induction l generalizing s with
  | nil => exact h
  | cons r l ih => exact ih (Wf_applyRecord h r)

theorem hasTeam_cons_self (k : String) (v : TeamScores) (s : Scoreboard) :
    hasTeam ((k, v) :: s) k = true := by
  simp [hasTeam, lookup]

theorem hasTeam_cons_ne {k' k : String} (h : ¬k' = k) (v : TeamScores)
    (s : Scoreboard) : hasTeam ((k', v) :: s) k = hasTeam s k := by
  simp [hasTeam, lookup, h]

theorem scoredVal_cons_self (k : String) (v : TeamScores) (s : Scoreboard) :
    scoredVal ((k, v) :: s) k = v.goals_scored := by
  simp [scoredVal, lookup]

theorem concededVal_cons_self (k : String) (v : TeamScores) (s : Scoreboard) :
    concededVal ((k, v) :: s) k = v.goals_conceded := by
  simp [concededVal, lookup]

theorem scoredVal_cons_ne {k' k : String} (h : ¬k' = k) (v : TeamScores)
    (s : Scoreboard) : scoredVal ((k', v) :: s) k = scoredVal s k := by
  simp [scoredVal, lookup, h]

theorem concededVal_cons_ne {k' k : String} (h : ¬k' = k) (v : TeamScores)
    (s : Scoreboard) : concededVal ((k', v) :: s) k = concededVal s k := by
  simp [concededVal, lookup, h]

theorem lookup_eq_of_hasTeam {a : Scoreboard} {k : String}
    (h : hasTeam a k = true) :
    lookup a k = some ⟨scoredVal a k, concededVal a k⟩ := by
  cases hl : lookup a k with
  | none => simp [hasTeam, hl] at h
  | some v => simp [scoredVal, concededVal, hl]

theorem lookup_eq_none_of_not_hasTeam {a : Scoreboard} {k : String}
    (h : hasTeam a k = false) : lookup a k = none := by
  cases hl : lookup a k with
  | none => rfl
  | some v => simp [hasTeam, hl] at h

theorem scoredVal_eq_zero_of_not_hasTeam {a : Scoreboard} {k : String}
    (h : hasTeam a k = false) : scoredVal a k = 0 := by
  simp [scoredVal, lookup_eq_none_of_not_hasTeam h]

theorem concededVal_eq_zero_of_not_hasTeam {a : Scoreboard} {k : String}
    (h : hasTeam a k = false) : concededVal a k = 0 := by
  simp [concededVal, lookup_eq_none_of_not_hasTeam h]

theorem lookup_mem {s : Scoreboard} {k : String} {v : TeamScores}
    (h : lookup s k = some v) : (k, v) ∈ s := by
  induction s with
  | nil => simp [lookup] at h
  | cons p rest ih =>
    obtain ⟨k', w⟩ := p
    by_cases hk : k' = k
    · subst hk
      simp [lookup] at h
      subst h
      exact List.mem_cons_self _ _
    · simp [lookup, hk] at h
      exact List.mem_cons_of_mem _ (ih h)

theorem scoredVal_lt_256 {s : Scoreboard} (hs : Wf s) (k : String) :
    scoredVal s k < 256 := by
  cases h : lookup s k with
  | none => norm_num [scoredVal, h]
  | some v => simpa [scoredVal, h] using (hs.2 _ (lookup_mem h)).1

theorem concededVal_lt_256 {s : Scoreboard} (hs : Wf s) (k : String) :
    concededVal s k < 256 := by
  cases h : lookup s k with
  | none => norm_num [concededVal, h]
  | some v => simpa [concededVal, h] using (hs.2 _ (lookup_mem h)).2

theorem mergeTwo_nil (a : Scoreboard) : mergeTwo a [] = a := rfl

theorem mergeTwo_cons (a : Scoreboard) (k : String) (v : TeamScores)
    (b : Scoreboard) :
    mergeTwo a ((k, v) :: b) =
      mergeTwo (updateEntry a k v.goals_scored v.goals_conceded) b := rfl

theorem Wf_cons_tail {p : String × TeamScores} {b : Scoreboard}
    (h : Wf (p :: b)) : Wf b :=
  ⟨(List.nodup_cons.mp h.1).2, fun q hq => h.2 q (List.mem_cons_of_mem _ hq)⟩

theorem lookup_mergeTwo {b : Scoreboard} (hb : Wf b) (a : Scoreboard)
    (k : String) :
    lookup (mergeTwo a b) k =
      if hasTeam b k then
        some ⟨u8add (scoredVal a k) (scoredVal b k),
              u8add (concededVal a k) (concededVal b k)⟩
      else lookup a k := by
  induction b generalizing a with
  | nil => simp [mergeTwo_nil, hasTeam, lookup]
  | cons p rest ih =>
    obtain ⟨k', v⟩ := p
    have hbrest : Wf rest := Wf_cons_tail hb
    rw [mergeTwo_cons]
    by_cases h : k' = k
    · subst h
      have hnotin : hasTeam rest k' = false := by
        cases hh : hasTeam rest k' with
        | false => rfl
        | true =>
          exact absurd ((hasTeam_iff_mem_keys _ _).mp hh)
            (List.nodup_cons.mp hb.1).1
      rw [ih hbrest, hnotin, hasTeam_cons_self, scoredVal_cons_self,
        concededVal_cons_self, lookup_updateEntry_self]
      simp
    · rw [ih hbrest, hasTeam_cons_ne h, scoredVal_cons_ne h,
        concededVal_cons_ne h]
      cases h2 : hasTeam rest k <;>
        simp [scoredVal, concededVal, lookup_updateEntry_ne _ h]

theorem Wf_mergeTwo {a : Scoreboard} (ha : Wf a) (b : Scoreboard) :
    Wf (mergeTwo a b) := by
  induction b generalizing a with
  | nil => exact ha
  | cons p rest ih =>
    rw [show mergeTwo a (p :: rest) =
      mergeTwo (updateEntry a p.1 p.2.goals_scored p.2.goals_conceded) rest
      from rfl]
    exact ih (Wf_updateEntry ha _ _ _)

theorem hasTeam_mergeTwo {b : Scoreboard} (hb : Wf b) (a : Scoreboard)
    (k : String) :
    hasTeam (mergeTwo a b) k = (hasTeam a k || hasTeam b k) := by
  have hl := lookup_mergeTwo hb a k
  cases h : hasTeam b k <;> rw [h] at hl <;> simp [hasTeam, hl, h]

theorem scoredVal_mergeTwo {a b : Scoreboard} (ha : Wf a) (hb : Wf b)
    (k : String) :
    scoredVal (mergeTwo a b) k = u8add (scoredVal a k) (scoredVal b k) := by
  cases h : hasTeam b k
  · rw [scoredVal_eq_zero_of_not_hasTeam (h := h)]
    have : lookup (mergeTwo a b) k = lookup a k := by
      simp [lookup_mergeTwo hb, h]
    rw [show scoredVal (mergeTwo a b) k =
      ((lookup (mergeTwo a b) k).getD ⟨0, 0⟩).goals_scored from rfl, this]
    cases h2 : hasTeam a k
    · rw [show ((lookup a k).getD ⟨0, 0⟩).goals_scored = scoredVal a k from rfl,
        scoredVal_eq_zero_of_not_hasTeam h2]
      simp [u8add]
    · rw [show ((lookup a k).getD ⟨0, 0⟩).goals_scored = scoredVal a k from rfl,
        u8add_zero_of_lt (scoredVal_lt_256 ha k)]
  · simp [scoredVal, lookup_mergeTwo hb, h]

theorem concededVal_mergeTwo {a b : Scoreboard} (ha : Wf a) (hb : Wf b)
    (k : String) :
    concededVal (mergeTwo a b) k =
      u8add (concededVal a k) (concededVal b k) := by
  cases h : hasTeam b k
  · rw [concededVal_eq_zero_of_not_hasTeam (h := h)]
    have : lookup (mergeTwo a b) k = lookup a k := by
      simp [lookup_mergeTwo hb, h]
    rw [show concededVal (mergeTwo a b) k =
      ((lookup (mergeTwo a b) k).getD ⟨0, 0⟩).goals_conceded from rfl, this]
    cases h2 : hasTeam a k
    · rw [show ((lookup a k).getD ⟨0, 0⟩).goals_conceded = concededVal a k
        from rfl, concededVal_eq_zero_of_not_hasTeam h2]
      simp [u8add]
    · rw [show ((lookup a k).getD ⟨0, 0⟩).goals_conceded = concededVal a k
        from rfl, u8add_zero_of_lt (concededVal_lt_256 ha k)]
  · simp [concededVal, lookup_mergeTwo hb, h]

theorem lookup_mergeTwo_wf {a b : Scoreboard} (ha : Wf a) (hb : Wf b)
    (k : String) :
    lookup (mergeTwo a b) k =
      if (hasTeam a k || hasTeam b k) then
        some ⟨u8add (scoredVal a k) (scoredVal b k),
              u8add (concededVal a k) (concededVal b k)⟩
      else none := by
  rw [lookup_mergeTwo hb]
  cases h : hasTeam b k
  · cases h2 : hasTeam a k
    · simp [h2, lookup_eq_none_of_not_hasTeam h2]
    · simp [h2, lookup_eq_of_hasTeam h2, scoredVal_eq_zero_of_not_hasTeam h,
        concededVal_eq_zero_of_not_hasTeam h,
        u8add_zero_of_lt (scoredVal_lt_256 ha k),
        u8add_zero_of_lt (concededVal_lt_256 ha k)]
  · simp

theorem lookup_foldl_mergeTwo {bs : List Scoreboard} (hbs : ∀ b ∈ bs, Wf b)
    {a : Scoreboard} (ha : Wf a) (k : String) :
    lookup (List.foldl mergeTwo a bs) k =
      if (hasTeam a k || bs.any (hasTeam · k)) then
        some ⟨u8add (scoredVal a k) ((bs.map (scoredVal · k)).sum),
              u8add (concededVal a k) ((bs.map (concededVal · k)).sum)⟩
      else none := by
  induction bs generalizing a with
  | nil =>
    cases h : hasTeam a k
    · simp [h, lookup_eq_none_of_not_hasTeam h]
    · simp [h, lookup_eq_of_hasTeam h,
        u8add_zero_of_lt (scoredVal_lt_256 ha k),
        u8add_zero_of_lt (concededVal_lt_256 ha k)]
  | cons b rest ih =>
    have hb : Wf b := hbs b (List.mem_cons_self _ _)
    have hrest : ∀ x ∈ rest, Wf x := fun x hx => hbs x (List.mem_cons_of_mem _ hx)
    rw [List.foldl_cons, ih hrest (Wf_mergeTwo ha b), hasTeam_mergeTwo hb,
      scoredVal_mergeTwo ha hb, concededVal_mergeTwo ha hb, u8add_u8add,
      u8add_u8add]
    simp [Bool.or_assoc, Nat.add_assoc]

theorem lookup_merge {bs : List Scoreboard} (hbs : ∀ b ∈ bs, Wf b) (k : String) :
    lookup (merge bs) k =
      if bs.any (hasTeam · k) then
        some ⟨((bs.map (scoredVal · k)).sum) % 256,
              ((bs.map (concededVal · k)).sum) % 256⟩
      else none := by
  rw [show merge bs = List.foldl mergeTwo [] bs from rfl,
    lookup_foldl_mergeTwo hbs Wf_nil]
  simp [hasTeam, lookup, scoredVal, concededVal, u8add]

theorem Wf_foldl_mergeTwo {a : Scoreboard} (ha : Wf a) (bs : List Scoreboard) :
    Wf (List.foldl mergeTwo a bs) := by
  induction bs generalizing a with
  | nil => exact ha
  | cons b rest ih => exact ih (Wf_mergeTwo ha b)

theorem Wf_merge (bs : List Scoreboard) : Wf (merge bs) :=
  Wf_foldl_mergeTwo Wf_nil bs

theorem hasTeam_merge {bs : List Scoreboard} (hbs : ∀ b ∈ bs, Wf b)
    (k : String) : hasTeam (merge bs) k = bs.any (hasTeam · k) := by
  have hl := lookup_merge hbs k
  cases h : bs.any (hasTeam · k) <;> rw [h] at hl <;> simp [hasTeam, hl]

theorem scoredVal_merge {bs : List Scoreboard} (hbs : ∀ b ∈ bs, Wf b)
    (k : String) :
    scoredVal (merge bs) k = ((bs.map (scoredVal · k)).sum) % 256 := by
  have hl := lookup_merge hbs k
  cases h : bs.any (hasTeam · k) <;> rw [h] at hl <;>
    simp only [if_true, if_false, Bool.false_eq_true, if_neg, reduceIte] at hl
  · have hz : ∀ b ∈ bs, scoredVal b k = 0 := by
      intro b hb
      have := (List.any_eq_false.mp h) b hb
      exact scoredVal_eq_zero_of_not_hasTeam (by simpa using this)
    rw [scoredVal, hl]
    have : (bs.map (scoredVal · k)).sum = 0 :=
      List.sum_eq_zero (by intro x hx; obtain ⟨b, hb, rfl⟩ := List.mem_map.mp hx; exact hz b hb)
    simp [this]
  · simp [scoredVal, hl]

theorem concededVal_merge {bs : List Scoreboard} (hbs : ∀ b ∈ bs, Wf b)
    (k : String) :
    concededVal (merge bs) k = ((bs.map (concededVal · k)).sum) % 256 := by
  have hl := lookup_merge hbs k
  cases h : bs.any (hasTeam · k) <;> rw [h] at hl <;>
    simp only [if_true, if_false, Bool.false_eq_true, if_neg, reduceIte] at hl
  · have hz : ∀ b ∈ bs, concededVal b k = 0 := by
      intro b hb
      have := (List.any_eq_false.mp h) b hb
      exact concededVal_eq_zero_of_not_hasTeam (by simpa using this)
    rw [concededVal, hl]
    have : (bs.map (concededVal · k)).sum = 0 :=
      List.sum_eq_zero (by intro x hx; obtain ⟨b, hb, rfl⟩ := List.mem_map.mp hx; exact hz b hb)
    simp [this]
  · simp [concededVal, hl]

theorem hasTeam_aggregate_nil (l : List MatchRecord) (k : String) :
    hasTeam (aggregate l []) k = touchesAny l k := by
  rw [hasTeam_aggregate]
  simp [hasTeam, lookup]

theorem scoredVal_aggregate_nil (l : List MatchRecord) (k : String) :
    scoredVal (aggregate l []) k = totScored l k % 256 := by
  cases h : touchesAny l k
  · simp [scoredVal, lookup_aggregate, lookup, h, totScored_eq_zero h]
  · simp [scoredVal, lookup_aggregate, lookup, h, u8add]

theorem concededVal_aggregate_nil (l : List MatchRecord) (k : String) :
    concededVal (aggregate l []) k = totConceded l k % 256 := by
  cases h : touchesAny l k
  · simp [concededVal, lookup_aggregate, lookup, h, totConceded_eq_zero h]
  · simp [concededVal, lookup_aggregate, lookup, h, u8add]

theorem touchesAny_append (l1 l2 : List MatchRecord) (k : String) :
    touchesAny (l1 ++ l2) k = (touchesAny l1 k || touchesAny l2 k) := by
  simp [touchesAny]

theorem totScored_append (l1 l2 : List MatchRecord) (k : String) :
    totScored (l1 ++ l2) k = totScored l1 k + totScored l2 k := by
  simp [totScored]

theorem totConceded_append (l1 l2 : List MatchRecord) (k : String) :
    totConceded (l1 ++ l2) k = totConceded l1 k + totConceded l2 k := by
  simp [totConceded]

theorem touchesAny_flatten (ll : List (List MatchRecord)) (k : String) :
    touchesAny ll.flatten k = ll.any (touchesAny · k) := by
  induction ll with
  | nil => rfl
  | cons l ll ih => simp [List.flatten_cons, touchesAny_append, ih]

theorem totScored_flatten (ll : List (List MatchRecord)) (k : String) :
    totScored ll.flatten k = (ll.map (totScored · k)).sum := by
  induction ll with
  | nil => rfl
  | cons l ll ih => simp [List.flatten_cons, totScored_append, ih]

theorem totConceded_flatten (ll : List (List MatchRecord)) (k : String) :
    totConceded ll.flatten k = (ll.map (totConceded · k)).sum := by
  induction ll with
  | nil => rfl
  | cons l ll ih => simp [List.flatten_cons, totConceded_append, ih]

theorem u8add_comm (a b : Nat) : u8add a b = u8add b a := by
  simp [u8add, Nat.add_comm]

theorem u8add_u8add_right (x a b : Nat) : u8add x (u8add a b) = u8add x (a + b) := by
  simp only [u8add]
  omega

theorem BoardEquiv.rfl' (s : Scoreboard) : BoardEquiv s s := fun _ => rfl

theorem BoardEquiv.symm' {s t : Scoreboard} (h : BoardEquiv s t) :
    BoardEquiv t s := fun k => (h k).symm

theorem BoardEquiv.trans' {s t u : Scoreboard} (h1 : BoardEquiv s t)
    (h2 : BoardEquiv t u) : BoardEquiv s u := fun k => (h1 k).trans (h2 k)

theorem mergeTwo_congr_left {a a' b : Scoreboard} (ha : Wf a) (ha' : Wf a')
    (hb : Wf b) (e : BoardEquiv a a') :
    BoardEquiv (mergeTwo a b) (mergeTwo a' b) := by
  intro k
  have h1 : hasTeam a k = hasTeam a' k := by simp [hasTeam, e k]
  have h2 : scoredVal a k = scoredVal a' k := by simp [scoredVal, e k]
  have h3 : concededVal a k = concededVal a' k := by simp [concededVal, e k]
  rw [lookup_mergeTwo_wf ha hb, lookup_mergeTwo_wf ha' hb, h1, h2, h3]

theorem mergeTwo_congr_right {a b b' : Scoreboard} (ha : Wf a) (hb : Wf b)
    (hb' : Wf b') (e : BoardEquiv b b') :
    BoardEquiv (mergeTwo a b) (mergeTwo a b') := by
  intro k
  have h1 : hasTeam b k = hasTeam b' k := by simp [hasTeam, e k]
  have h2 : scoredVal b k = scoredVal b' k := by simp [scoredVal, e k]
  have h3 : concededVal b k = concededVal b' k := by simp [concededVal, e k]
  rw [lookup_mergeTwo_wf ha hb, lookup_mergeTwo_wf ha hb', h1, h2, h3]

theorem mergeTwo_assoc_equiv {a b c : Scoreboard} (ha : Wf a) (hb : Wf b)
    (hc : Wf c) :
    BoardEquiv (mergeTwo (mergeTwo a b) c) (mergeTwo a (mergeTwo b c)) := by
  intro k
  rw [lookup_mergeTwo_wf (Wf_mergeTwo ha b) hc,
    lookup_mergeTwo_wf ha (Wf_mergeTwo hb c), hasTeam_mergeTwo hb,
    hasTeam_mergeTwo hc, scoredVal_mergeTwo ha hb, concededVal_mergeTwo ha hb,
    scoredVal_mergeTwo hb hc, concededVal_mergeTwo hb hc, u8add_u8add,
    u8add_u8add, u8add_u8add_right, u8add_u8add_right, Bool.or_assoc]

theorem mergeTwo_comm_equiv {a b : Scoreboard} (ha : Wf a) (hb : Wf b) :
    BoardEquiv (mergeTwo a b) (mergeTwo b a) := by
  intro k
  rw [lookup_mergeTwo_wf ha hb, lookup_mergeTwo_wf hb ha, Bool.or_comm,
    u8add_comm (scoredVal a k), u8add_comm (concededVal a k)]

theorem mergeTwo_nil_left {a : Scoreboard} (ha : Wf a) :
    BoardEquiv (mergeTwo [] a) a := by
  intro k
  have h0 : hasTeam ([] : Scoreboard) k = false := rfl
  rw [lookup_mergeTwo_wf Wf_nil ha, h0, Bool.false_or]
  cases h : hasTeam a k
  · simp [lookup_eq_none_of_not_hasTeam h]
  · rw [lookup_eq_of_hasTeam h]
    have e1 : u8add (scoredVal ([] : Scoreboard) k) (scoredVal a k) =
        scoredVal a k := by
      have hlt := scoredVal_lt_256 ha k
      rw [show scoredVal ([] : Scoreboard) k = 0 from rfl]
      simp only [u8add]
      omega
    have e2 : u8add (concededVal ([] : Scoreboard) k) (concededVal a k) =
        concededVal a k := by
      have hlt := concededVal_lt_256 ha k
      rw [show concededVal ([] : Scoreboard) k = 0 from rfl]
      simp only [u8add]
      omega
    simp [e1, e2]

theorem merge_pair_equiv {x y : Scoreboard} (hx : Wf x) (hy : Wf y) :
    BoardEquiv (merge [x, y]) (mergeTwo x y) := by
  have : merge [x, y] = mergeTwo (mergeTwo [] x) y := rfl
  rw [this]
  exact mergeTwo_congr_left (Wf_mergeTwo Wf_nil x) hx hy (mergeTwo_nil_left hx)

theorem merge_triple_equiv {a b c : Scoreboard} (ha : Wf a) (hb : Wf b)
    (hc : Wf c) :
    BoardEquiv (merge [a, b, c]) (mergeTwo (mergeTwo a b) c) := by
  have : merge [a, b, c] = mergeTwo (mergeTwo (mergeTwo [] a) b) c := rfl
  rw [this]
  exact mergeTwo_congr_left (Wf_mergeTwo (Wf_mergeTwo Wf_nil a) b)
    (Wf_mergeTwo ha b) hc
    (mergeTwo_congr_left (Wf_mergeTwo Wf_nil a) ha hb (mergeTwo_nil_left ha))

theorem merge_perm_equiv {bs bs' : List Scoreboard} (hbs : ∀ b ∈ bs, Wf b)
    (hperm : bs.Perm bs') : BoardEquiv (merge bs) (merge bs') := by
  have hbs' : ∀ b ∈ bs', Wf b := fun b hb => hbs b (hperm.mem_iff.mpr hb)
  intro k
  rw [lookup_merge hbs k, lookup_merge hbs' k]
  have hany : bs.any (hasTeam · k) = bs'.any (hasTeam · k) := by
    cases h1 : bs.any (hasTeam · k) <;> cases h2 : bs'.any (hasTeam · k) <;>
      try rfl
    · obtain ⟨x, hx, hpx⟩ := List.any_eq_true.mp h2
      have := List.any_eq_false.mp h1 x (hperm.mem_iff.mpr hx)
      simp [hpx] at this
    · obtain ⟨x, hx, hpx⟩ := List.any_eq_true.mp h1
      have := List.any_eq_false.mp h2 x (hperm.mem_iff.mp hx)
      simp [hpx] at this
  have hsum1 : (bs.map (scoredVal · k)).sum = (bs'.map (scoredVal · k)).sum :=
    (hperm.map (scoredVal · k)).sum_eq
  have hsum2 : (bs.map (concededVal · k)).sum =
      (bs'.map (concededVal · k)).sum :=
    (hperm.map (concededVal · k)).sum_eq
  rw [hany, hsum1, hsum2]

theorem merge_partition_equiv (shards : List (List MatchRecord)) :
    BoardEquiv (merge (shards.map (fun l => aggregate l [])))
      (aggregate shards.flatten []) := by
  have hws : ∀ b ∈ shards.map (fun l => aggregate l []), Wf b := by
    intro b hb
    obtain ⟨l, hl, rfl⟩ := List.mem_map.mp hb
    exact Wf_aggregate Wf_nil l
  intro k
  rw [lookup_merge hws k]
  have hcond : (shards.map (fun l => aggregate l [])).any (hasTeam · k) =
      touchesAny shards.flatten k := by
    rw [touchesAny_flatten]
    clear hws
    induction shards with
    | nil => rfl
    | cons l ll ih => simp [List.any_cons, ih, hasTeam_aggregate_nil]
  have hvs : ((shards.map (fun l => aggregate l [])).map (scoredVal · k)).sum
      % 256 = totScored shards.flatten k % 256 := by
    rw [List.map_map, totScored_flatten]
    have hfun : ((scoredVal · k) ∘ fun l => aggregate l []) =
        fun l => totScored l k % 256 :=
      funext fun l => scoredVal_aggregate_nil l k
    rw [hfun]
    conv_rhs => rw [List.sum_nat_mod]
    rw [List.map_map]
    rfl
  have hvc : ((shards.map (fun l => aggregate l [])).map (concededVal · k)).sum
      % 256 = totConceded shards.flatten k % 256 := by
    rw [List.map_map, totConceded_flatten]
    have hfun : ((concededVal · k) ∘ fun l => aggregate l []) =
        fun l => totConceded l k % 256 :=
      funext fun l => concededVal_aggregate_nil l k
    rw [hfun]
    conv_rhs => rw [List.sum_nat_mod]
    rw [List.map_map]
    rfl
  rw [hcond, hvs, hvc]
  cases h : touchesAny shards.flatten k
  · have hn : hasTeam (aggregate shards.flatten []) k = false := by
      rw [hasTeam_aggregate_nil, h]
    simp [lookup_eq_none_of_not_hasTeam hn]
  · have hht : hasTeam (aggregate shards.flatten []) k = true := by
      rw [hasTeam_aggregate_nil, h]
    rw [lookup_eq_of_hasTeam hht, scoredVal_aggregate_nil,
      concededVal_aggregate_nil]
    simp

theorem except_bind_ok {ε α β : Type} (a : α) (f : α → Except ε β) :
    (Except.ok a : Except ε α) >>= f = f a := rfl

theorem except_bind_error {ε α β : Type} (e : ε) (f : α → Except ε β) :
    (Except.error e : Except ε α) >>= f = Except.error e := rfl

theorem except_map_ok {ε α β : Type} (f : α → β) (a : α) :
    (f <$> (Except.ok a : Except ε α)) = Except.ok (f a) := rfl

theorem except_map_error {ε α β : Type} (f : α → β) (e : ε) :
    (f <$> (Except.error e : Except ε α)) = Except.error e := rfl

/-- C1: aggregating the five reference records `England,France,4,2`,
`France,Italy,3,1`, `Poland,Spain,2,0`, `Germany,England,2,1`,
`England,Spain,1,0` from the empty scoreboard yields a scoreboard whose
entries are exactly England 6/4, France 5/5, Italy 1/3, Poland 2/0,
Spain 0/3, Germany 2/1 (scored/conceded). -/
theorem C1_reference_scoreboard :
    build_scores_table RESULTS =
      .ok [("England", ⟨6, 4⟩), ("France", ⟨5, 5⟩), ("Italy", ⟨1, 3⟩),
           ("Poland", ⟨2, 0⟩), ("Spain", ⟨0, 3⟩), ("Germany", ⟨2, 1⟩)] := by
  decide

/-- C2 (amended): for a record `(A,B,g_a,g_b)` with `A ≠ B`, applying it to
any scoreboard creates the two entries if absent (never an error), adds
`g_a` to A's scored and B's conceded totals and `g_b` to B's scored and A's
conceded totals modulo 2^8 (the `u8` counters wrap), leaves every other
entry unchanged, and the additions are exact whenever they stay below
2^8. -/
theorem C2_record_update_symmetric :
    ∀ (s : Scoreboard) (r : MatchRecord), r.team_1_name ≠ r.team_2_name →
      (hasTeam (applyRecord s r) r.team_1_name = true ∧
        hasTeam (applyRecord s r) r.team_2_name = true) ∧
      (scoredVal (applyRecord s r) r.team_1_name =
          u8add (scoredVal s r.team_1_name) r.team_1_score ∧
        concededVal (applyRecord s r) r.team_2_name =
          u8add (concededVal s r.team_2_name) r.team_1_score ∧
        scoredVal (applyRecord s r) r.team_2_name =
          u8add (scoredVal s r.team_2_name) r.team_2_score ∧
        concededVal (applyRecord s r) r.team_1_name =
          u8add (concededVal s r.team_1_name) r.team_2_score) ∧
      (∀ k, k ≠ r.team_1_name → k ≠ r.team_2_name →
        lookup (applyRecord s r) k = lookup s k) ∧
      (scoredVal s r.team_1_name + r.team_1_score < 256 →
        scoredVal (applyRecord s r) r.team_1_name =
          scoredVal s r.team_1_name + r.team_1_score) ∧
      (concededVal s r.team_2_name + r.team_1_score < 256 →
        concededVal (applyRecord s r) r.team_2_name =
          concededVal s r.team_2_name + r.team_1_score) ∧
      (scoredVal s r.team_2_name + r.team_2_score < 256 →
        scoredVal (applyRecord s r) r.team_2_name =
          scoredVal s r.team_2_name + r.team_2_score) ∧
      (concededVal s r.team_1_name + r.team_2_score < 256 →
        concededVal (applyRecord s r) r.team_1_name =
          concededVal s r.team_1_name + r.team_2_score) := by
  intro s r hne
  have hne' : r.team_2_name ≠ r.team_1_name := fun hh => hne hh.symm
  have ht1 : touches r r.team_1_name = true := by simp [touches]
  have ht2 : touches r r.team_2_name = true := by simp [touches]
  have hc1 : contribScored r r.team_1_name = r.team_1_score := by
    simp [contribScored, hne']
  have hc2 : contribConceded r r.team_1_name = r.team_2_score := by
    simp [contribConceded, hne']
  have hc3 : contribScored r r.team_2_name = r.team_2_score := by
    simp [contribScored, hne]
  have hc4 : contribConceded r r.team_2_name = r.team_1_score := by
    simp [contribConceded, hne]
  refine ⟨⟨?_, ?_⟩, ⟨?_, ?_, ?_, ?_⟩, ?_, ?_, ?_, ?_, ?_⟩
  · simp [hasTeam_applyRecord, ht1]
  · simp [hasTeam_applyRecord, ht2]
  · simp [scoredVal_applyRecord, ht1, hc1]
  · simp [concededVal_applyRecord, ht2, hc4]
  · simp [scoredVal_applyRecord, ht2, hc3]
  · simp [concededVal_applyRecord, ht1, hc2]
  · intro k hk1 hk2
    have hkt : touches r k = false := by
      simp [touches, Ne.symm hk1, Ne.symm hk2]
    simp [lookup_applyRecord, hkt]
  · intro h
    simp [scoredVal_applyRecord, ht1, hc1, u8add, Nat.mod_eq_of_lt h]
  · intro h
    simp [concededVal_applyRecord, ht2, hc4, u8add, Nat.mod_eq_of_lt h]
  · intro h
    simp [scoredVal_applyRecord, ht2, hc3, u8add, Nat.mod_eq_of_lt h]
  · intro h
    simp [concededVal_applyRecord, ht1, hc2, u8add, Nat.mod_eq_of_lt h]

/-- C2 witness: a concrete instance of the update symmetry with every
hypothesis discharged. -/
theorem C2_record_update_symmetric_witness :
    ("A" : String) ≠ "B" ∧
      scoredVal (applyRecord [] ⟨"A", "B", 4, 2⟩) "A" =
        u8add (scoredVal ([] : Scoreboard) "A") 4 :=
  ⟨by decide, ((C2_record_update_symmetric [] ⟨"A", "B", 4, 2⟩ (by decide)).2.1).1⟩

/-- C2 counterexample: the increase is not exactly `g_a` once the `u8`
counter overflows: after `A,B,200,0`, applying `A,B,100,0` leaves A's
scored total at `(200 + 100) % 256 = 44`, not `300`. -/
theorem C2_counterexample :
    ¬ (scoredVal (applyRecord (aggregate [⟨"A", "B", 200, 0⟩] [])
          ⟨"A", "B", 100, 0⟩) "A" =
        scoredVal (aggregate [⟨"A", "B", 200, 0⟩] []) "A" + 100) := by
  decide

/-- C3: the code performs no checked addition and never produces an
`OverflowError`: the counters are 8-bit and the running total wraps
silently — aggregating `A,B,200,0` then `A,B,100,0` succeeds and stores
`(200 + 100) % 256 = 44` for A's scored and B's conceded totals. -/
theorem C3_unchecked_overflow_wraps :
    build_scores_table "A,B,200,0\nA,B,100,0" =
      .ok [("A", ⟨44, 0⟩), ("B", ⟨0, 44⟩)] := by
  decide

/-- C4 (amended): after aggregating any record sequence from the empty
scoreboard, the key list is duplicate-free and contains exactly the team
names appearing on either side of some record; an entry never decreases
across a single update provided the addition stays below 2^8 (with
overflow the `u8` value wraps and can decrease). -/
theorem C4_entries_unique_and_monotone :
    (∀ l : List MatchRecord, (keys (aggregate l [])).Nodup ∧
      ∀ k, k ∈ keys (aggregate l []) ↔ touchesAny l k = true) ∧
    (∀ (s : Scoreboard) (r : MatchRecord) (k : String),
      scoredVal s k + contribScored r k < 256 →
        scoredVal s k ≤ scoredVal (applyRecord s r) k) ∧
    (∀ (s : Scoreboard) (r : MatchRecord) (k : String),
      concededVal s k + contribConceded r k < 256 →
        concededVal s k ≤ concededVal (applyRecord s r) k) := by
  refine ⟨?_, ?_, ?_⟩
  · intro l
    refine ⟨nodup_keys_aggregate (s := []) (by simp [keys]) l, fun k => ?_⟩
    rw [← hasTeam_iff_mem_keys, hasTeam_aggregate_nil]
  · intro s r k h
    rw [scoredVal_applyRecord]
    cases ht : touches r k
    · simp
    · simp only [reduceIte, u8add]
      omega
  · intro s r k h
    rw [concededVal_applyRecord]
    cases ht : touches r k
    · simp
    · simp only [reduceIte, u8add]
      omega

/-- C4 witness: a concrete instance of the monotone-update part with its
hypothesis discharged. -/
theorem C4_entries_unique_and_monotone_witness :
    scoredVal [] "A" + contribScored ⟨"A", "B", 3, 1⟩ "A" < 256 ∧
      scoredVal [] "A" ≤ scoredVal (applyRecord [] ⟨"A", "B", 3, 1⟩) "A" :=
  ⟨by decide, C4_entries_unique_and_monotone.2.1 [] ⟨"A", "B", 3, 1⟩ "A" (by decide)⟩

/-- C4 counterexample: an entry can decrease across successive updates:
after `A,B,128,0`, a second `A,B,128,0` wraps A's scored total from 128 to
`(128 + 128) % 256 = 0`. -/
theorem C4_counterexample :
    scoredVal (aggregate [⟨"A", "B", 128, 0⟩, ⟨"A", "B", 128, 0⟩] []) "A" <
      scoredVal (aggregate [⟨"A", "B", 128, 0⟩] []) "A" := by
  decide

/-- C10 (amended): a self-match record (`team_a = team_b`) yields a single
entry for that team; each of its two totals grows by `g_a + g_b` modulo
2^8 — so the record contributes equally to the scored and conceded
totals — exactly `g_a + g_b` when the sum stays below 2^8; other entries
are untouched. -/
theorem C10_self_match :
    ∀ (s : Scoreboard) (r : MatchRecord), r.team_1_name = r.team_2_name →
      keys (applyRecord [] r) = [r.team_1_name] ∧
      scoredVal (applyRecord s r) r.team_1_name =
        u8add (scoredVal s r.team_1_name) (r.team_1_score + r.team_2_score) ∧
      concededVal (applyRecord s r) r.team_1_name =
        u8add (concededVal s r.team_1_name) (r.team_1_score + r.team_2_score) ∧
      (∀ k, k ≠ r.team_1_name → lookup (applyRecord s r) k = lookup s k) ∧
      (scoredVal s r.team_1_name + (r.team_1_score + r.team_2_score) < 256 →
        scoredVal (applyRecord s r) r.team_1_name =
          scoredVal s r.team_1_name + (r.team_1_score + r.team_2_score)) ∧
      (concededVal s r.team_1_name + (r.team_1_score + r.team_2_score) < 256 →
        concededVal (applyRecord s r) r.team_1_name =
          concededVal s r.team_1_name + (r.team_1_score + r.team_2_score)) := by
  intro s r heq
  obtain ⟨t1, t2, g1, g2⟩ := r
  simp only at heq
  subst heq
  have ht1 : touches ⟨t1, t1, g1, g2⟩ t1 = true := by simp [touches]
  have hc1 : contribScored ⟨t1, t1, g1, g2⟩ t1 = g1 + g2 := by
    simp [contribScored]
  have hc2 : contribConceded ⟨t1, t1, g1, g2⟩ t1 = g2 + g1 := by
    simp [contribConceded]
  refine ⟨?_, ?_, ?_, ?_, ?_, ?_⟩
  · simp [applyRecord, updateEntry, keys]
  · simp [scoredVal_applyRecord, ht1, hc1]
  · simp [concededVal_applyRecord, ht1, hc2, Nat.add_comm g2 g1]
  · intro k hk
    have hkt : touches ⟨t1, t1, g1, g2⟩ k = false := by
      simp [touches, Ne.symm hk]
    simp [lookup_applyRecord, hkt]
  · intro h
    have hgoal := scoredVal_applyRecord s ⟨t1, t1, g1, g2⟩ t1
    simp only [ht1, reduceIte, hc1] at hgoal
    dsimp only at h ⊢
    rw [hgoal]
    simp only [u8add]
    omega
  · intro h
    have hgoal := concededVal_applyRecord s ⟨t1, t1, g1, g2⟩ t1
    simp only [ht1, reduceIte, hc2] at hgoal
    dsimp only at h ⊢
    rw [hgoal]
    simp only [u8add]
    omega

/-- C10 witness: a concrete self-match instance with the hypotheses
discharged. -/
theorem C10_self_match_witness :
    ("A" : String) = "A" ∧
      scoredVal (applyRecord [] ⟨"A", "A", 3, 1⟩) "A" =
        u8add (scoredVal ([] : Scoreboard) "A") (3 + 1) :=
  ⟨rfl, (C10_self_match [] ⟨"A", "A", 3, 1⟩ rfl).2.1⟩

/-- C10 counterexample: for the self-match `A,A,200,100` the entry does
not increase by `g_a + g_b = 300`: the `u8` counters wrap to
`300 % 256 = 44`. -/
theorem C10_counterexample :
    ¬ (scoredVal (applyRecord [] ⟨"A", "A", 200, 100⟩) "A" =
        scoredVal ([] : Scoreboard) "A" + (200 + 100)) := by
  decide

/-- C5 (amended): a line with fewer than four comma-separated fields makes
the parsing code panic on `Option::unwrap` or `Result::unwrap` (modelled
as an error value carrying no structured `MalformedRecord` payload), and
`build_scores_table` aborts with no scoreboard at all; in particular
`England,France,4` fails this way.  A line with more than four fields is
accepted, its extra fields silently ignored. -/
theorem C5_short_line_panics :
    (∀ fields : List String, fields.length < 4 →
      ∃ e, parseFields fields = .error e) ∧
    parseLine "England,France,4" = .error .unwrapNone ∧
    build_scores_table "England,France,4" = .error .unwrapNone ∧
    parseLine "England,France,4,2,9" = .ok ⟨"England", "France", 4, 2⟩ := by
  refine ⟨?_, by decide, by decide, by decide⟩
  intro fields h
  match fields with
  | [] => exact ⟨.unwrapNone, rfl⟩
  | [a] => exact ⟨.unwrapNone, rfl⟩
  | [a, b] => exact ⟨.unwrapNone, rfl⟩
  | [a, b, c] =>
    cases hc : parseU8 c with
    | ok n =>
      exact ⟨.unwrapNone, by simp [parseFields, nextUnwrap, parseUnwrap, hc,
        except_bind_ok, except_bind_error, except_map_ok, except_map_error]⟩
    | error k =>
      exact ⟨.unwrapErr k, by simp [parseFields, nextUnwrap, parseUnwrap, hc,
        except_bind_ok, except_bind_error, except_map_ok, except_map_error]⟩
  | a :: b :: c :: d :: rest =>
    simp at h
    omega

/-- C5 witness: a two-field line, with the length hypothesis discharged. -/
theorem C5_short_line_panics_witness :
    (["England", "France"] : List String).length < 4 ∧
      ∃ e, parseFields ["England", "France"] = .error e :=
  ⟨by decide, C5_short_line_panics.1 ["England", "France"] (by decide)⟩

/-- C5 counterexample: a line with more than four fields does not fail:
the source requests only four fields from the split iterator, so the
five-field line `England,France,4,2,9` parses successfully — contradicting
the claim that any field count other than four is a `MalformedRecord`
failure. -/
theorem C5_counterexample :
    parseLine "England,France,4,2,9" = .ok ⟨"England", "France", 4, 2⟩ := by
  decide

/-- C6 (amended): when the third field — or the fourth, with the third
valid — of a four-field line is not a parseable `u8` (non-numeric and
negative tokens included), the code panics on `Result::unwrap`, modelled
as an `unwrapErr` failure carrying only the `ParseIntError` kind: no raw
text, no field side, no `InvalidGoalCount` value; `England,France,four,2`
fails this way on the first goal field. -/
theorem C6_bad_goal_field_panics :
    (∀ t1 t2 g1 g2 : String, ∀ k : IntErrorKind, parseU8 g1 = .error k →
      parseFields [t1, t2, g1, g2] = .error (.unwrapErr k)) ∧
    (∀ t1 t2 g1 g2 : String, ∀ n : Nat, ∀ k : IntErrorKind,
      parseU8 g1 = .ok n → parseU8 g2 = .error k →
      parseFields [t1, t2, g1, g2] = .error (.unwrapErr k)) ∧
    parseLine "England,France,four,2" = .error (.unwrapErr .invalidDigit) := by
  refine ⟨?_, ?_, by decide⟩
  · intro t1 t2 g1 g2 k hk
    simp [parseFields, nextUnwrap, parseUnwrap, hk,
      except_bind_ok, except_bind_error, except_map_ok, except_map_error]
  · intro t1 t2 g1 g2 n k hn hk
    simp [parseFields, nextUnwrap, parseUnwrap, hn, hk,
      except_bind_ok, except_bind_error, except_map_ok, except_map_error]

/-- C6 witness: the bad third field `four`, with the parse-failure
hypothesis discharged. -/
theorem C6_bad_goal_field_panics_witness :
    parseU8 "four" = .error .invalidDigit ∧
      parseFields ["England", "France", "four", "2"] =
        .error (.unwrapErr .invalidDigit) :=
  ⟨by decide,
    C6_bad_goal_field_panics.1 "England" "France" "four" "2" .invalidDigit (by decide)⟩

/-- C6 counterexample: the failure names neither the raw text nor the
failing side: a bad third field and a bad fourth field produce the
identical outcome (the same unwrap panic), so no
`InvalidGoalCount { field, raw_text }` is carried. -/
theorem C6_counterexample :
    parseLine "England,France,four,2" = parseLine "England,France,2,four" ∧
      parseLine "England,France,four,2" = .error (.unwrapErr .invalidDigit) := by
  constructor <;> decide

/-- C8 (amended): goal fields may carry one leading `+`: Rust
`u8::from_str` strips it, so prefixing one `+` to a digit string never
changes the parse result, and the line `England,France,+4,2` is accepted
as the record (England, France, 4, 2). -/
theorem C8_leading_plus_accepted :
    (∀ (c : Char) (cs : List Char), isDigitChar c = true →
      parseU8 (String.mk ('+' :: c :: cs)) = parseU8 (String.mk (c :: cs))) ∧
    parseLine "England,France,+4,2" = .ok ⟨"England", "France", 4, 2⟩ := by
  refine ⟨?_, by decide⟩
  intro c cs hc
  have hcp : ¬(c = '+') := fun hh => absurd (hh ▸ hc) (by decide)
  rw [show parseU8 (String.mk ('+' :: c :: cs)) = parseU8Digits (c :: cs) 0
    from rfl]
  simp [parseU8, hcp]

/-- C8 witness: stripping the `+` of `+4`, with the digit hypothesis
discharged. -/
theorem C8_leading_plus_accepted_witness :
    isDigitChar '4' = true ∧
      parseU8 (String.mk ['+', '4']) = parseU8 (String.mk ['4']) :=
  ⟨by decide, C8_leading_plus_accepted.1 '4' [] (by decide)⟩

/-- C8 counterexample: the line `England,France,+4,2`, whose third field
carries a leading `+`, is not rejected: it parses to the record
(England, France, 4, 2), contradicting the claim that a leading `+` is
invalid in a goal field. -/
theorem C8_counterexample :
    parseLine "England,France,+4,2" = .ok ⟨"England", "France", 4, 2⟩ := by
  decide

/-- C9: parsing is deterministic and pure: the result is a function of the
input text alone, so byte-identical inputs always produce identical
outcomes — the same parsed record or the same failure. -/
theorem C9_parse_deterministic :
    ∀ s₁ s₂ : String, s₁ = s₂ → parseLine s₁ = parseLine s₂ :=
  fun _ _ h => congrArg parseLine h

/-- C9 witness: determinism at the reference line. -/
theorem C9_parse_deterministic_witness :
    ("England,France,4,2" : String) = "England,France,4,2" ∧
      parseLine "England,France,4,2" = parseLine "England,France,4,2" :=
  ⟨rfl, C9_parse_deterministic "England,France,4,2" "England,France,4,2" rfl⟩

/-- C7 (spec-modelled Shard Merger): merging is associative and commutative
on well-formed scoreboards — `merge([merge([a,b]),c])`,
`merge([a,merge([b,c])])` and `merge([a,b,c])` coincide as maps, and any
permutation of the shard list merges to the same map — and for every
partition of an input record sequence into shards, aggregating each shard
independently and merging the partial scoreboards equals aggregating the
whole input sequentially. -/
theorem C7_merge_assoc_comm_partition :
    (∀ a b c : Scoreboard, Wf a → Wf b → Wf c →
      BoardEquiv (mergeTwo (mergeTwo a b) c) (mergeTwo a (mergeTwo b c)) ∧
      BoardEquiv (mergeTwo a b) (mergeTwo b a) ∧
      BoardEquiv (merge [merge [a, b], c]) (merge [a, merge [b, c]]) ∧
      BoardEquiv (merge [merge [a, b], c]) (merge [a, b, c])) ∧
    (∀ bs bs' : List Scoreboard, (∀ b ∈ bs, Wf b) → bs.Perm bs' →
      BoardEquiv (merge bs) (merge bs')) ∧
    (∀ shards : List (List MatchRecord),
      BoardEquiv (merge (shards.map (fun l => aggregate l [])))
        (aggregate shards.flatten [])) := by
  refine ⟨?_, fun bs bs' hbs hperm => merge_perm_equiv hbs hperm,
    merge_partition_equiv⟩
  intro a b c ha hb hc
  have hmab := Wf_merge [a, b]
  have hmbc := Wf_merge [b, c]
  refine ⟨mergeTwo_assoc_equiv ha hb hc, mergeTwo_comm_equiv ha hb, ?_, ?_⟩
  · have e1 : BoardEquiv (merge [merge [a, b], c]) (mergeTwo (merge [a, b]) c) :=
      merge_pair_equiv hmab hc
    have e2 : BoardEquiv (mergeTwo (merge [a, b]) c)
        (mergeTwo (mergeTwo a b) c) :=
      mergeTwo_congr_left hmab (Wf_mergeTwo ha b) hc (merge_pair_equiv ha hb)
    have e3 := mergeTwo_assoc_equiv ha hb hc
    have e4 : BoardEquiv (mergeTwo a (mergeTwo b c))
        (mergeTwo a (merge [b, c])) :=
      mergeTwo_congr_right ha (Wf_mergeTwo hb c) hmbc
        (BoardEquiv.symm' (merge_pair_equiv hb hc))
    have e5 : BoardEquiv (mergeTwo a (merge [b, c]))
        (merge [a, merge [b, c]]) :=
      BoardEquiv.symm' (merge_pair_equiv ha hmbc)
    exact BoardEquiv.trans' e1 (BoardEquiv.trans' e2
      (BoardEquiv.trans' e3 (BoardEquiv.trans' e4 e5)))
  · have e1 : BoardEquiv (merge [merge [a, b], c]) (mergeTwo (merge [a, b]) c) :=
      merge_pair_equiv hmab hc
    have e2 : BoardEquiv (mergeTwo (merge [a, b]) c)
        (mergeTwo (mergeTwo a b) c) :=
      mergeTwo_congr_left hmab (Wf_mergeTwo ha b) hc (merge_pair_equiv ha hb)
    have e3 := BoardEquiv.symm' (merge_triple_equiv ha hb hc)
    exact BoardEquiv.trans' e1 (BoardEquiv.trans' e2 e3)

/-- C7 witness: associativity of the merge at three concrete shards, with
the well-formedness hypotheses discharged. -/
theorem C7_merge_assoc_comm_partition_witness :
    Wf [("A", ⟨1, 2⟩)] ∧ Wf [("B", ⟨3, 4⟩)] ∧ Wf [("A", ⟨5, 6⟩)] ∧
      BoardEquiv
        (mergeTwo (mergeTwo [("A", ⟨1, 2⟩)] [("B", ⟨3, 4⟩)]) [("A", ⟨5, 6⟩)])
        (mergeTwo [("A", ⟨1, 2⟩)] (mergeTwo [("B", ⟨3, 4⟩)] [("A", ⟨5, 6⟩)])) :=
  ⟨by constructor <;> simp [keys], by constructor <;> simp [keys],
    by constructor <;> simp [keys],
    (C7_merge_assoc_comm_partition.1 [("A", ⟨1, 2⟩)] [("B", ⟨3, 4⟩)]
      [("A", ⟨5, 6⟩)] (by constructor <;> simp [keys])
      (by constructor <;> simp [keys]) (by constructor <;> simp [keys])).1⟩

end Hashmaps3
